import Mathlib

/-!
Shallow embedding of the project-aggregator reconciliation core
(`js/config.js` and `js/api.js`).

JavaScript nullable string fields are modelled as `Option String`, where
`none` stands for any falsy value (absent, `null`, or the empty string);
the helpers `optOr`, `optOrStr` and `strOr` additionally treat an
explicit empty string as falsy, mirroring the `||` operator. The
`repoUrl` field of a manual entry is genuinely tri-state in the source
(`undefined` vs `null` vs string), so it is modelled as
`Option (Option String)`: `none` is `undefined`, `some none` is an
explicit `null`, `some (some s)` is a string value.
-/

/-- JavaScript `a || b` on two nullable strings: the left value if it is
truthy (present and non-empty), otherwise the right value. -/
def optOr (a b : Option String) : Option String :=
  match a with
  | some s => if s.isEmpty then b else some s
  | none => b

/-- JavaScript `a || b` where the fallback is a plain string. -/
def optOrStr (a : Option String) (b : String) : String :=
  match a with
  | some s => if s.isEmpty then b else s
  | none => b

/-- JavaScript `a || b` on two plain strings. -/
def strOr (a b : String) : String :=
  if a.isEmpty then b else a

/-- JavaScript truthiness of a nullable string. -/
def truthy : Option String → Bool
  | some s => !s.isEmpty
  | none => false

/-- A raw manual project entry as it comes out of the YAML document,
before `normalizeProject` (all keys optional; `repoUrl` tri-state). -/
structure RawProject where
  repo : Option String := none
  name : Option String := none
  description : Option String := none
  url : Option String := none
  repoUrl : Option (Option String) := none
  thumbnail : Option String := none
  order : Option Nat := none
deriving DecidableEq, Repr

/-- A manual project entry after `normalizeProject` (config.js lines
54-64): `name` is always a string, `repoUrl` is always defined (never
`undefined`), the remaining fields are nullable. -/
structure ConfigProject where
  repo : Option String
  name : String
  description : Option String
  url : Option String
  repoUrl : Option (Option String)
  thumbnail : Option String
  order : Option Nat
deriving DecidableEq, Repr

/-- `normalizeProject` from config.js: fills defaults for every field of
a raw YAML project entry. `project.repoUrl !== undefined ?
project.repoUrl : null` keeps a declared value (including an explicit
null) and turns an absent field into null. -/
def normalizeProject (project : RawProject) : ConfigProject :=
  { repo := optOr project.repo none
    name := optOrStr project.name (optOrStr project.repo "Untitled")
    description := optOr project.description none
    url := optOr project.url none
    repoUrl := some (project.repoUrl.getD none)
    thumbnail := optOr project.thumbnail none
    order := match project.order with
      | some n => if n = 0 then none else some n
      | none => none }

/-- The raw configuration document (`jsyaml.load` output), all keys
optional. -/
structure RawConfig where
  username : Option String := none
  exclude : Option (List String) := none
  order : Option (List String) := none
  projects : Option (List RawProject) := none
deriving DecidableEq, Repr

/-- The normalized configuration produced by `Config.load`. -/
structure Config where
  username : String
  exclude : List String
  order : List String
  projects : List ConfigProject
deriving DecidableEq, Repr

/-- Outcome of fetching and parsing `projects.yaml`: `failure` covers a
fetch error, a non-ok HTTP status or a parse error (the catch branch of
`load`); `success raw` is a parsed document, where `raw = none` models
`jsyaml.load` returning a falsy value (the `|| {}` fallback). -/
inductive LoadResult where
  | failure
  | success (raw : Option RawConfig)
deriving DecidableEq, Repr

/-- `Config.load` from config.js: on success, normalize the document
with defaults; on any failure, substitute the built-in default
configuration. -/
def load : LoadResult → Config
  | .failure =>
    { username := "darrenmcewan", exclude := [], order := [], projects := [] }
  | .success raw =>
    let c := raw.getD {}
    { username := optOrStr c.username ""
      exclude := c.exclude.getD []
      order := c.order.getD []
      projects := (c.projects.getD []).map normalizeProject }

/-- `Config.getUsername`: the configured username, or the literal
fallback when falsy. -/
def getUsername (c : Config) : String :=
  strOr c.username "darrenmcewan"

/-- `Config.getExcluded`. -/
def getExcluded (c : Config) : List String :=
  c.exclude

/-- `Config.getOrder`. -/
def getOrder (c : Config) : List String :=
  c.order

/-- `Config.getProjects`. -/
def getProjects (c : Config) : List ConfigProject :=
  c.projects

/-- `Config.getProjectOverride`: the first manual entry whose `repo`
equals the given repository name (`Array.prototype.find`). -/
def getProjectOverride (c : Config) (repoName : String) : Option ConfigProject :=
  (getProjects c).find? (fun p => p.repo == some repoName)

/-- `Config.getManualProjects`: the manual entries that carry a truthy
`url`. -/
def getManualProjects (c : Config) : List ConfigProject :=
  (getProjects c).filter (fun p => truthy p.url)

/-- `Config.getReposWithCustomUrls`: names of repositories referenced by
a manual entry that has both a truthy `url` and a truthy `repo`. -/
def getReposWithCustomUrls (c : Config) : List String :=
  ((getProjects c).filter (fun p => truthy p.url && truthy p.repo)).map
    (fun p => p.repo.getD "")

/-- A repository record as returned by the repository source (the fields
of the GitHub API payload that the core reads). -/
structure Repo where
  name : String
  description : Option String
  html_url : String
  has_pages : Bool
deriving DecidableEq, Repr

/-- The output view-record handed to the presentation layer. -/
structure Project where
  name : String
  description : String
  url : Option String
  repoUrl : Option String
  thumbnail : Option String
  isAutoDiscovered : Bool
deriving DecidableEq, Repr

/-- `filterPagesEnabled` from api.js: keep repositories whose pages
feature is enabled. -/
def filterPagesEnabled (repos : List Repo) : List Repo :=
  repos.filter (fun repo => repo.has_pages)

/-- The predictable pages-hosting URL built from account and repository
name. -/
def pagesUrl (username name : String) : String :=
  "https://" ++ username ++ ".github.io/" ++ name ++ "/"

/-- The canonical source link built from account and repository name. -/
def repoHomeUrl (username name : String) : String :=
  "https://github.com/" ++ username ++ "/" ++ name

/-- `transformRepo` from api.js: an auto-discovered repository becomes a
Project. -/
def transformRepo (repo : Repo) (username : String) : Project :=
  { name := repo.name
    description := optOrStr repo.description ""
    url := some (pagesUrl username repo.name)
    repoUrl := some repo.html_url
    thumbnail := none
    isAutoDiscovered := true }

/-- The override application in `mergeWithConfig` (api.js lines 89-95):
each of `name`, `description`, `url`, `thumbnail` is replaced only when
the override field is truthy; `repoUrl` and `isAutoDiscovered` are kept. -/
def overrideProject (override : ConfigProject) (project : Project) : Project :=
  { project with
    name := strOr override.name project.name
    description := optOrStr override.description project.description
    url := optOr override.url project.url
    thumbnail := optOr override.thumbnail project.thumbnail }

/-- The body of the map over surviving repositories in `mergeWithConfig`
(api.js lines 83-99): transform the repository, then apply the override
entry when one matches its name. -/
def mergeAutoProject (config : Config) (username : String) (repo : Repo) : Project :=
  let project := transformRepo repo username
  match getProjectOverride config repo.name with
  | some override => overrideProject override project
  | none => project

/-- The manual-project materialization in `mergeWithConfig` (api.js
lines 102-109). The `p.repoUrl !== undefined` test maps to the outer
`Option` of the tri-state `repoUrl` field. -/
def mkMergeManualProject (username : String) (p : ConfigProject) : Project :=
  { name := strOr p.name (p.repo.getD "")
    description := optOrStr p.description ""
    url := p.url
    repoUrl :=
      match p.repoUrl with
      | some v => v
      | none =>
        if truthy p.repo then some (repoHomeUrl username (p.repo.getD "")) else none
    thumbnail := p.thumbnail
    isAutoDiscovered := false }

/-- The manual-project materialization in `getManualProjectsOnly`
(api.js lines 174-181). Here the test is `p.repoUrl !== null`: a defined
string is used verbatim, an explicit null falls through to the
synthesized link (or null without a repo name); an `undefined` field
would also pass the `!== null` test and stay absent. -/
def mkFallbackProject (username : String) (p : ConfigProject) : Project :=
  { name := strOr p.name (optOrStr p.repo "Untitled")
    description := optOrStr p.description ""
    url := some (optOrStr p.url
      (if truthy p.repo then pagesUrl username (p.repo.getD "") else "#"))
    repoUrl :=
      match p.repoUrl with
      | some (some s) => some s
      | some none =>
        if truthy p.repo then some (repoHomeUrl username (p.repo.getD "")) else none
      | none => none
    thumbnail := p.thumbnail
    isAutoDiscovered := false }

/-- Ordering comparison of two lowercased character lists, by code
point. -/
def cmpCharList : List Char → List Char → Ordering
  | [], [] => .eq
  | [], _ :: _ => .lt
  | _ :: _, [] => .gt
  | a :: as, b :: bs =>
    if a.toNat < b.toNat then .lt
    else if b.toNat < a.toNat then .gt
    else cmpCharList as bs

/-- The characters of a string, lowercased. -/
def lowerChars (s : String) : List Char :=
  s.data.map Char.toLower

/-- Modelled from the spec: `String.prototype.localeCompare` is supplied
by the JavaScript host, not by this repository; the spec describes the
comparison as locale-aware case-insensitive lexicographic order. We
model it as code-point comparison of the lowercased strings, returning a
negative, zero or positive number in the JavaScript convention. -/
def localeCompare (a b : String) : Int :=
  match cmpCharList (lowerChars a) (lowerChars b) with
  | .lt => -1
  | .eq => 0
  | .gt => 1

/-- JavaScript `Array.prototype.indexOf` on a list of strings: the index
of the first occurrence, or `-1`. -/
def jsIndexOf (l : List String) (s : String) : Int :=
  match l.findIdx? (fun a => a == s) with
  | some i => (i : Int)
  | none => -1

/-- The three-tier comparator of `mergeWithConfig` (api.js lines
115-129), also used unconditionally by `getManualProjectsOnly`: both
names in `order` compare by index; exactly one in `order` sorts first;
otherwise locale comparison of the names. -/
def projectCompare (order : List String) (a b : Project) : Int :=
  let aIndex := jsIndexOf order a.name
  let bIndex := jsIndexOf order b.name
  if aIndex ≠ -1 ∧ bIndex ≠ -1 then aIndex - bIndex
  else if aIndex ≠ -1 then -1
  else if bIndex ≠ -1 then 1
  else localeCompare a.name b.name

/-- JavaScript `Array.prototype.sort` with a numeric comparator. Since
ES2019 the sort is required to be stable, and for a consistent
comparator (a total preorder, which both comparators of this repository
are) the stable sorted order is unique; we model it by Mathlib's stable
insertion sort over the relation `cmp a b ≤ 0`. -/
def jsSortBy (cmp : Project → Project → Int) (l : List Project) : List Project :=
  List.insertionSort (fun a b => cmp a b ≤ 0) l

/-- The auto-discovered branch of `mergeWithConfig` (api.js lines
81-99): drop excluded names and names with custom URLs, then transform
and apply overrides. -/
def autoBranch (repos : List Repo) (config : Config) (username : String) : List Project :=
  (repos.filter (fun repo =>
      !(getExcluded config).contains repo.name &&
      !(getReposWithCustomUrls config).contains repo.name)).map
    (fun repo => mergeAutoProject config username repo)

/-- The manual branch of `mergeWithConfig` (api.js lines 102-109). -/
def manualBranch (config : Config) (username : String) : List Project :=
  (getManualProjects config).map (fun p => mkMergeManualProject username p)

/-- `mergeWithConfig` from api.js: concatenate the two branches, then
sort — with the three-tier comparator when `order` is non-empty, and
with the plain locale comparator otherwise. -/
def mergeWithConfig (repos : List Repo) (config : Config) (username : String) : List Project :=
  let projects := autoBranch repos config username ++ manualBranch config username
  if (getOrder config).length > 0 then
    jsSortBy (projectCompare (getOrder config)) projects
  else
    jsSortBy (fun a b => localeCompare a.name b.name) projects

/-- The pure core of `getProjects` from api.js (the network fetches and
the profile projection stripped): filter the repositories for the pages
feature, then merge with the configuration. This is the primary merge
`reconcile(repositories, config, account)` of the spec. -/
def reconcile (repos : List Repo) (config : Config) (username : String) : List Project :=
  mergeWithConfig (filterPagesEnabled repos) config username

/-- The pure core of `getManualProjectsOnly` from api.js (the profile
projection stripped): materialize every manual entry, then sort with the
three-tier comparator. This is the manual-only fallback
`reconcileManualOnly(config, account)` of the spec. -/
def getManualProjectsOnly (config : Config) : List Project :=
  let username := getUsername config
  let manualProjects := (getProjects config).map (fun p => mkFallbackProject username p)
  jsSortBy (projectCompare (getOrder config)) manualProjects

/-! ## Concrete inputs used by counterexamples and witnesses -/

/-- A configuration with a single override-without-url entry for repo `x`. -/
def c1Config : Config :=
  load (.success (some { projects := some [{ repo := some "x", description := some "custom" }] }))

/-- A single pages-enabled repository named `x`. -/
def c1Repos : List Repo :=
  [{ name := "x", description := some "orig", html_url := "https://github.com/u/x", has_pages := true }]

/-- A configuration with one manual entry that has a repo name and a
custom url but no declared `repoUrl`. -/
def c2Config : Config :=
  load (.success (some { projects := some [{ repo := some "proj1", url := some "https://example.com" }] }))

/-- A configuration whose single manual entry sets `repoUrl` to an
explicit null. -/
def c3Config : Config :=
  load (.success (some { username := some "alice"
                         projects := some [{ repo := some "proj1", repoUrl := some none }] }))

/-- The normalized form of an entry with a repo name and an explicit
null `repoUrl`. -/
def c3Entry : ConfigProject :=
  normalizeProject { repo := some "proj1", repoUrl := some none }

/-- A pages-enabled repository named `a`. -/
def c4Repo : Repo :=
  { name := "a", description := none, html_url := "https://github.com/u/a", has_pages := true }

def c4Repos : List Repo := [c4Repo]

/-- The built-in default configuration. -/
def c4Config : Config := load .failure

/-- A pages-enabled repository named `b`. -/
def c5Repo : Repo :=
  { name := "b", description := none, html_url := "https://github.com/u/b", has_pages := true }

def c5Repos : List Repo := [c5Repo]

def c5Config : Config := load .failure

/-- A pages-enabled repository named `x`, matched by a manual entry with
a custom url. -/
def c6Repo : Repo :=
  { name := "x", description := some "d", html_url := "https://github.com/u/x", has_pages := true }

def c6Repos : List Repo := [c6Repo]

def c6Config : Config :=
  load (.success (some { projects := some [{ repo := some "x", url := some "https://example.com" }] }))

/-- The normalized form of the entry of `c6Config`. -/
def c6Entry : ConfigProject :=
  normalizeProject { repo := some "x", url := some "https://example.com" }

/-- Three pages-enabled repositories with mixed-case names. -/
def c7Repos : List Repo :=
  [{ name := "beta", description := none, html_url := "rb", has_pages := true },
   { name := "Alpha", description := none, html_url := "ra", has_pages := true },
   { name := "gamma", description := none, html_url := "rg", has_pages := true }]

/-- A configuration with an empty `order`. -/
def c7Config : Config := load (.success none)

/-- The configuration of the manual-only fallback example: account
`alice`, one entry with only a repo name, one empty entry. -/
def c8Config : Config :=
  load (.success (some { username := some "alice"
                         projects := some [{ repo := some "proj1" }, {}] }))

/-- A repository named `x` that two manual entries reference. -/
def c10Repo : Repo :=
  { name := "x", description := none, html_url := "https://github.com/u/x", has_pages := true }

/-- The first manual entry referencing repo `x`. -/
def c10First : ConfigProject :=
  normalizeProject { repo := some "x", description := some "first" }

/-- The second manual entry referencing repo `x`. -/
def c10Second : ConfigProject :=
  normalizeProject { repo := some "x", description := some "second" }

def c10RawEntries : List RawProject :=
  [{ repo := some "x", description := some "first" },
   { repo := some "x", description := some "second" }]

def c10Config : Config :=
  load (.success (some { projects := some c10RawEntries }))

/-! ## Order-theoretic facts about the comparators -/

theorem cmpCharList_swap (x : List Char) : ∀ y, cmpCharList y x = (cmpCharList x y).swap := by
  induction x with
  | nil => intro y; cases y <;> simp [cmpCharList, Ordering.swap]
  | cons a as ih =>
    intro y
    cases y with
    | nil => simp [cmpCharList, Ordering.swap]
    | cons b bs =>
      simp only [cmpCharList]
      rcases Nat.lt_trichotomy a.toNat b.toNat with h | h | h
      · rw [if_pos h, if_neg (by omega), if_pos h]; rfl
      · rw [if_neg (by omega), if_neg (by omega), if_neg (by omega), if_neg (by omega)]
        exact ih bs
      · rw [if_pos h, if_neg (by omega), if_pos h]; rfl

theorem cmpCharList_le_trans :
    ∀ x y z : List Char, cmpCharList x y ≠ .gt → cmpCharList y z ≠ .gt →
      cmpCharList x z ≠ .gt := by
  intro x
  induction x with
  | nil =>
    intro y z _ _
    cases z <;> simp [cmpCharList]
  | cons a as ih =>
    intro y z h1 h2
    cases y with
    | nil => simp [cmpCharList] at h1
    | cons b bs =>
      cases z with
      | nil => simp [cmpCharList] at h2
      | cons c cs =>
        simp only [cmpCharList] at h1 h2 ⊢
        rcases Nat.lt_trichotomy a.toNat b.toNat with hab | hab | hab
        · rcases Nat.lt_trichotomy b.toNat c.toNat with hbc | hbc | hbc
          · rw [if_pos (by omega)]; simp
          · rw [if_pos (by omega)]; simp
          · rw [if_neg (by omega), if_pos hbc] at h2; simp at h2
        · rcases Nat.lt_trichotomy b.toNat c.toNat with hbc | hbc | hbc
          · rw [if_pos (by omega)]; simp
          · rw [if_neg (by omega), if_neg (by omega)] at h1 h2 ⊢
            exact ih bs cs h1 h2
          · rw [if_neg (by omega), if_pos hbc] at h2; simp at h2
        · rw [if_neg (by omega), if_pos hab] at h1; simp at h1

theorem localeCompare_nonpos_iff (a b : String) :
    localeCompare a b ≤ 0 ↔ cmpCharList (lowerChars a) (lowerChars b) ≠ .gt := by
  unfold localeCompare
  rcases h : cmpCharList (lowerChars a) (lowerChars b) <;> simp [h]

theorem localeCompare_le_trans {a b c : String}
    (h1 : localeCompare a b ≤ 0) (h2 : localeCompare b c ≤ 0) :
    localeCompare a c ≤ 0 := by
  rw [localeCompare_nonpos_iff] at h1 h2 ⊢
  exact cmpCharList_le_trans _ _ _ h1 h2

theorem localeCompare_le_total (a b : String) :
    localeCompare a b ≤ 0 ∨ localeCompare b a ≤ 0 := by
  rw [localeCompare_nonpos_iff, localeCompare_nonpos_iff]
  by_cases h : cmpCharList (lowerChars a) (lowerChars b) = .gt
  · right
    rw [cmpCharList_swap, h]
    simp [Ordering.swap]
  · left; exact h

theorem jsIndexOf_cases (l : List String) (s : String) :
    jsIndexOf l s = -1 ∨ 0 ≤ jsIndexOf l s := by
  unfold jsIndexOf
  cases h : l.findIdx? (fun a => a == s) with
  | none => left; rfl
  | some i => right; simp [h]

theorem projectCompare_le_trans (order : List String) {a b c : Project}
    (h1 : projectCompare order a b ≤ 0) (h2 : projectCompare order b c ≤ 0) :
    projectCompare order a c ≤ 0 := by
  simp only [projectCompare] at h1 h2 ⊢
  split_ifs at h1 h2 ⊢ <;>
    first
      | omega
      | exact localeCompare_le_trans h1 h2

theorem projectCompare_le_total (order : List String) (a b : Project) :
    projectCompare order a b ≤ 0 ∨ projectCompare order b a ≤ 0 := by
  simp only [projectCompare]
  split_ifs <;>
    first
      | omega
      | exact localeCompare_le_total a.name b.name

/-! ## Structure of the merge output -/

theorem jsSortBy_perm (cmp : Project → Project → Int) (l : List Project) :
    (jsSortBy cmp l).Perm l :=
  List.perm_insertionSort _ l

theorem mem_jsSortBy {cmp : Project → Project → Int} {l : List Project} {p : Project} :
    p ∈ jsSortBy cmp l ↔ p ∈ l :=
  (jsSortBy_perm cmp l).mem_iff

theorem sorted_jsSortBy (cmp : Project → Project → Int)
    (htrans : ∀ a b c, cmp a b ≤ 0 → cmp b c ≤ 0 → cmp a c ≤ 0)
    (htotal : ∀ a b, cmp a b ≤ 0 ∨ cmp b a ≤ 0) (l : List Project) :
    (jsSortBy cmp l).Sorted (fun a b => cmp a b ≤ 0) := by
  haveI : IsTotal Project (fun a b => cmp a b ≤ 0) := ⟨htotal⟩
  haveI : IsTrans Project (fun a b => cmp a b ≤ 0) := ⟨fun a b c => htrans a b c⟩
  exact List.sorted_insertionSort _ l

theorem mergeWithConfig_perm (repos : List Repo) (config : Config) (username : String) :
    (mergeWithConfig repos config username).Perm
      (autoBranch repos config username ++ manualBranch config username) := by
  unfold mergeWithConfig
  split <;> exact jsSortBy_perm _ _

theorem reconcile_perm (repos : List Repo) (config : Config) (username : String) :
    (reconcile repos config username).Perm
      (autoBranch (filterPagesEnabled repos) config username ++
        manualBranch config username) :=
  mergeWithConfig_perm (filterPagesEnabled repos) config username

theorem mem_reconcile_iff {repos : List Repo} {config : Config} {username : String}
    {p : Project} :
    p ∈ reconcile repos config username ↔
      p ∈ autoBranch (filterPagesEnabled repos) config username ∨
        p ∈ manualBranch config username := by
  rw [(reconcile_perm repos config username).mem_iff, List.mem_append]

theorem mergeAutoProject_isAutoDiscovered (config : Config) (username : String)
    (repo : Repo) : (mergeAutoProject config username repo).isAutoDiscovered = true := by
  unfold mergeAutoProject
  cases getProjectOverride config repo.name <;>
    simp [overrideProject, transformRepo]

theorem mkMergeManualProject_isAutoDiscovered (username : String) (p : ConfigProject) :
    (mkMergeManualProject username p).isAutoDiscovered = false :=
  rfl

theorem mem_autoBranch_iff {repos : List Repo} {config : Config} {username : String}
    {p : Project} :
    p ∈ autoBranch repos config username ↔
      ∃ r, r ∈ repos ∧
        (getExcluded config).contains r.name = false ∧
        (getReposWithCustomUrls config).contains r.name = false ∧
        p = mergeAutoProject config username r := by
  unfold autoBranch
  simp only [List.mem_map, List.mem_filter, Bool.and_eq_true, Bool.not_eq_true']
  constructor
  · rintro ⟨r, ⟨hr, hex, hcu⟩, hp⟩
    exact ⟨r, hr, hex, hcu, hp.symm⟩
  · rintro ⟨r, hr, hex, hcu, hp⟩
    exact ⟨r, ⟨hr, hex, hcu⟩, hp.symm⟩

theorem mem_filterPagesEnabled_iff {repos : List Repo} {r : Repo} :
    r ∈ filterPagesEnabled repos ↔ r ∈ repos ∧ r.has_pages = true := by
  unfold filterPagesEnabled
  exact List.mem_filter

/-! ## Claims -/

/-- C1 counterexample: with one pages-enabled repository `x` and one
override-without-url manual entry for `x`, the primary merge returns 1
Project, not (1 surviving auto repository) + (1 manual entry) = 2: the
override entry is materialized once, via override application only. -/
theorem c1_counterexample :
    (reconcile c1Repos c1Config "u").length ≠
      ((filterPagesEnabled c1Repos).filter (fun r =>
          !(getExcluded c1Config).contains r.name &&
          !(getReposWithCustomUrls c1Config).contains r.name)).length
        + (getProjects c1Config).length := by
  decide

/-- C1 (amended): for every input, the number of Projects returned by
the primary merge equals the number of auto-discovered repositories
surviving the pages/exclusion filters plus the number of manual entries
that carry a non-null url (`getManualProjects`); an override entry
without a custom url is materialized exactly once. -/
theorem c1_output_count (repos : List Repo) (config : Config) (username : String) :
    (reconcile repos config username).length =
      ((filterPagesEnabled repos).filter (fun r =>
          !(getExcluded config).contains r.name &&
          !(getReposWithCustomUrls config).contains r.name)).length
        + (getManualProjects config).length := by
  rw [(reconcile_perm repos config username).length_eq, List.length_append]
  simp [autoBranch, manualBranch]

/-- C2 counterexample: a manual entry with a repo name, a custom url and
no declared `repoUrl`, run through the primary merge, yields a Project
whose `repoUrl` is null, not the synthesized canonical link. -/
theorem c2_counterexample :
    (reconcile [] c2Config "alice").map (fun p => p.repoUrl) = [none] ∧
    (none : Option String) ≠ some (repoHomeUrl "alice" "proj1") := by
  constructor
  · decide
  · decide

/-- C2 (amended): in the primary merge's manual materialization, the
resulting Project's `repoUrl` is the entry's normalized `repoUrl`
verbatim: the declared value when the entry declares one (including
explicit null) and null when it does not. The synthesized canonical link
is never produced on this path, because normalization defines `repoUrl`
for every entry, so the `undefined` test of the merge never fires. -/
theorem c2_manual_repoUrl (username : String) (raw : RawProject) :
    (mkMergeManualProject username (normalizeProject raw)).repoUrl =
      raw.repoUrl.getD none := by
  rfl

/-- C3 counterexample: an entry whose `repoUrl` is explicitly null and
whose repo name is `proj1`, materialized by the manual-only fallback
with account `alice`, receives the synthesized canonical link rather
than a null `repoUrl`. -/
theorem c3_counterexample :
    (getManualProjectsOnly c3Config).map (fun p => p.repoUrl) =
      [some (repoHomeUrl "alice" "proj1")] ∧
    some (repoHomeUrl "alice" "proj1") ≠ (none : Option String) := by
  constructor
  · decide
  · decide

/-- C3 (amended): a manual entry whose `repoUrl` is an explicit null
yields `repoUrl = null` in the primary merge's manual materialization,
but in the manual-only fallback the explicit null falls through to the
default: the canonical link synthesized from account and repo name when
a repo name is present, and null otherwise. -/
theorem c3_explicit_null_repoUrl (username : String) (p : ConfigProject)
    (h : p.repoUrl = some none) :
    (mkMergeManualProject username p).repoUrl = none ∧
    (mkFallbackProject username p).repoUrl =
      (if truthy p.repo then some (repoHomeUrl username (p.repo.getD "")) else none) := by
  constructor
  · simp [mkMergeManualProject, h]
  · simp [mkFallbackProject, h]

/-- Witness for C3 (amended) at the concrete entry of `c3Config`. -/
theorem c3_witness :
    c3Entry.repoUrl = some none ∧
    ((mkMergeManualProject "alice" c3Entry).repoUrl = none ∧
      (mkFallbackProject "alice" c3Entry).repoUrl =
        (if truthy c3Entry.repo then some (repoHomeUrl "alice" (c3Entry.repo.getD "")) else none)) :=
  ⟨by decide, c3_explicit_null_repoUrl "alice" c3Entry (by decide)⟩

theorem mem_manualBranch_isAutoDiscovered {config : Config} {username : String}
    {p : Project} (h : p ∈ manualBranch config username) :
    p.isAutoDiscovered = false := by
  simp only [manualBranch, List.mem_map] at h
  rcases h with ⟨q, _, hq⟩
  rw [← hq]
  rfl

/-- C4: no repository with the pages feature disabled ever produces a
Project in the primary merge: every auto-discovered Project of the
output originates from a repository of the input whose `has_pages` flag
is true. -/
theorem c4_pages_disabled_never_output (repos : List Repo) (config : Config)
    (username : String) (p : Project)
    (hp : p ∈ reconcile repos config username)
    (hauto : p.isAutoDiscovered = true) :
    ∃ r, r ∈ repos ∧ r.has_pages = true ∧ p = mergeAutoProject config username r := by
  rcases mem_reconcile_iff.1 hp with h | h
  · rcases mem_autoBranch_iff.1 h with ⟨r, hr, _, _, hpr⟩
    rcases mem_filterPagesEnabled_iff.1 hr with ⟨hr2, hpg⟩
    exact ⟨r, hr2, hpg, hpr⟩
  · rw [mem_manualBranch_isAutoDiscovered h] at hauto
    exact absurd hauto (by decide)

/-- Witness for C4 at a one-repository input. -/
theorem c4_witness :
    ∃ r, r ∈ c4Repos ∧ r.has_pages = true ∧
      mergeAutoProject c4Config "u" c4Repo = mergeAutoProject c4Config "u" r :=
  c4_pages_disabled_never_output c4Repos c4Config "u"
    (mergeAutoProject c4Config "u" c4Repo) (by decide) (by decide)

/-- C5: the auto-discovered branch of the primary merge retains exactly
the pages-enabled repositories whose name is neither in the exclusion
list nor among the names referenced by a manual entry with a custom url;
in particular every auto-discovered Project of the output originates
from such a repository, so an excluded name never appears via the
auto-discovered branch. -/
theorem c5_auto_branch_exact (repos : List Repo) (config : Config) (username : String) :
    (∀ p, p ∈ reconcile repos config username → p.isAutoDiscovered = true →
      ∃ r, r ∈ repos ∧ r.has_pages = true ∧
        (getExcluded config).contains r.name = false ∧
        (getReposWithCustomUrls config).contains r.name = false ∧
        p = mergeAutoProject config username r) ∧
    (∀ r, r ∈ repos → r.has_pages = true →
      (getExcluded config).contains r.name = false →
      (getReposWithCustomUrls config).contains r.name = false →
      mergeAutoProject config username r ∈ reconcile repos config username) := by
  constructor
  · intro p hp hauto
    rcases mem_reconcile_iff.1 hp with h | h
    · rcases mem_autoBranch_iff.1 h with ⟨r, hr, hex, hcu, hpr⟩
      rcases mem_filterPagesEnabled_iff.1 hr with ⟨hr2, hpg⟩
      exact ⟨r, hr2, hpg, hex, hcu, hpr⟩
    · rw [mem_manualBranch_isAutoDiscovered h] at hauto
      exact absurd hauto (by decide)
  · intro r hr hpg hex hcu
    exact mem_reconcile_iff.2 (Or.inl (mem_autoBranch_iff.2
      ⟨r, mem_filterPagesEnabled_iff.2 ⟨hr, hpg⟩, hex, hcu, rfl⟩))

/-- Witness for C5 at a one-repository input with the default
configuration. -/
theorem c5_witness :
    (∃ r, r ∈ c5Repos ∧ r.has_pages = true ∧
      (getExcluded c5Config).contains r.name = false ∧
      (getReposWithCustomUrls c5Config).contains r.name = false ∧
      mergeAutoProject c5Config "u" c5Repo = mergeAutoProject c5Config "u" r) ∧
    mergeAutoProject c5Config "u" c5Repo ∈ reconcile c5Repos c5Config "u" :=
  ⟨(c5_auto_branch_exact c5Repos c5Config "u").1
      (mergeAutoProject c5Config "u" c5Repo) (by decide) (by decide),
   (c5_auto_branch_exact c5Repos c5Config "u").2 c5Repo
      (by decide) (by decide) (by decide) (by decide)⟩

/-- C6: a pages-enabled repository matched by a manual entry with both a
repo name and a non-null url is excluded from the auto branch (every
auto-discovered Project originates from a differently named repository)
and contributes exactly one Project to the output, sourced from the
manual branch, whose url is exactly the configured one. The uniqueness
hypothesis `huniq` states that the entry's materialization occurs once
in the manual branch (no duplicate entry). -/
theorem c6_custom_url_entry (repos : List Repo) (config : Config) (username : String)
    (r : Repo) (u : String) (e : ConfigProject)
    (hr : r ∈ repos) (hpg : r.has_pages = true)
    (he : e ∈ getProjects config) (herepo : e.repo = some r.name)
    (hurl : e.url = some u) (hu : u ≠ "") (hrname : r.name ≠ "")
    (huniq : (manualBranch config username).count (mkMergeManualProject username e) = 1) :
    (∀ p, p ∈ reconcile repos config username → p.isAutoDiscovered = true →
      ∃ r2, r2 ∈ repos ∧ p = mergeAutoProject config username r2 ∧ r2.name ≠ r.name) ∧
    (reconcile repos config username).count (mkMergeManualProject username e) = 1 ∧
    (mkMergeManualProject username e).url = some u ∧
    (mkMergeManualProject username e).isAutoDiscovered = false := by
  have hmem : r.name ∈ getReposWithCustomUrls config := by
    unfold getReposWithCustomUrls
    refine List.mem_map.2 ⟨e, List.mem_filter.2 ⟨he, ?_⟩, ?_⟩
    · rw [herepo, hurl]
      simp only [truthy, Bool.and_eq_true, Bool.not_eq_true']
      constructor
      · rw [← Bool.not_eq_true, String.isEmpty_iff]; exact hu
      · rw [← Bool.not_eq_true, String.isEmpty_iff]; exact hrname
    · rw [herepo]
      rfl
  have hcontains : (getReposWithCustomUrls config).contains r.name = true := by
    simpa using hmem
  refine ⟨?_, ?_, ?_, rfl⟩
  · intro p hp hauto
    rcases mem_reconcile_iff.1 hp with h | h
    · rcases mem_autoBranch_iff.1 h with ⟨r2, hr2, _, hcu2, hpr⟩
      rcases mem_filterPagesEnabled_iff.1 hr2 with ⟨hr2m, _⟩
      refine ⟨r2, hr2m, hpr, ?_⟩
      intro hname
      rw [hname, hcontains] at hcu2
      exact absurd hcu2 (by decide)
    · rw [mem_manualBranch_isAutoDiscovered h] at hauto
      exact absurd hauto (by decide)
  · rw [(reconcile_perm repos config username).count_eq, List.count_append]
    have hauto0 :
        (autoBranch (filterPagesEnabled repos) config username).count
          (mkMergeManualProject username e) = 0 := by
      rw [List.count_eq_zero]
      intro hmem2
      rcases mem_autoBranch_iff.1 hmem2 with ⟨r2, _, _, _, heq⟩
      have h1 : (mkMergeManualProject username e).isAutoDiscovered = true := by
        rw [heq]
        exact mergeAutoProject_isAutoDiscovered config username r2
      rw [mkMergeManualProject_isAutoDiscovered] at h1
      exact absurd h1 (by decide)
    rw [hauto0, huniq]
  · rw [mkMergeManualProject, hurl]

/-- Witness for C6 at the concrete repository `x` and the entry of
`c6Config`. -/
theorem c6_witness :
    (reconcile c6Repos c6Config "u").count (mkMergeManualProject "u" c6Entry) = 1 ∧
    (mkMergeManualProject "u" c6Entry).url = some "https://example.com" :=
  ⟨(c6_custom_url_entry c6Repos c6Config "u" c6Repo "https://example.com" c6Entry
      (by decide) (by decide) (by decide) (by decide) (by decide) (by decide)
      (by decide) (by decide)).2.1,
   (c6_custom_url_entry c6Repos c6Config "u" c6Repo "https://example.com" c6Entry
      (by decide) (by decide) (by decide) (by decide) (by decide) (by decide)
      (by decide) (by decide)).2.2.1⟩

theorem projectCompare_nil (a b : Project) :
    projectCompare [] a b = localeCompare a.name b.name := by
  simp [projectCompare, jsIndexOf, List.findIdx?]

/-- C7: the output of the primary merge is a permutation of the two
concatenated branches, sorted by the three-tier comparator
`projectCompare` (indexes in `order` first, then one-sided presence in
`order`, then locale comparison of names); with an empty `order` the
output is sorted case-insensitively alphabetically by name. -/
theorem c7_three_tier_ordering (repos : List Repo) (config : Config) (username : String) :
    (reconcile repos config username).Perm
      (autoBranch (filterPagesEnabled repos) config username ++
        manualBranch config username) ∧
    (reconcile repos config username).Sorted
      (fun a b => projectCompare (getOrder config) a b ≤ 0) ∧
    (getOrder config = [] →
      (reconcile repos config username).Sorted
        (fun a b => localeCompare a.name b.name ≤ 0)) := by
  have hsorted : (reconcile repos config username).Sorted
      (fun a b => projectCompare (getOrder config) a b ≤ 0) := by
    unfold reconcile mergeWithConfig
    split
    · exact sorted_jsSortBy (projectCompare (getOrder config))
        (fun a b c h1 h2 => projectCompare_le_trans (getOrder config) h1 h2)
        (projectCompare_le_total (getOrder config)) _
    · rename_i hlen
      have horder : getOrder config = [] := List.length_eq_zero.1 (by omega)
      have hs := sorted_jsSortBy (fun a b => localeCompare a.name b.name)
        (fun a b c h1 h2 => localeCompare_le_trans h1 h2)
        (fun a b => localeCompare_le_total a.name b.name)
        (autoBranch (filterPagesEnabled repos) config username ++
          manualBranch config username)
      refine hs.imp ?_
      intro a b hab
      rw [horder, projectCompare_nil]
      exact hab
  refine ⟨reconcile_perm repos config username, hsorted, ?_⟩
  intro horder
  refine hsorted.imp ?_
  intro a b hab
  rw [horder, projectCompare_nil] at hab
  exact hab

/-- Witness for C7: with an empty order, a concrete merge output is
sorted case-insensitively by name. -/
theorem c7_witness :
    (reconcile c7Repos c7Config "u").Sorted
      (fun a b => localeCompare a.name b.name ≤ 0) :=
  (c7_three_tier_ordering c7Repos c7Config "u").2.2 (by decide)

/-- C8: the manual-only fallback with account `alice` turns the entry
with only the repo name `proj1` into a Project with the synthesized
pages url and the synthesized canonical link, and the entry with neither
url nor repo name into a Project with the literal url `#`. -/
theorem c8_fallback_defaults :
    getManualProjectsOnly c8Config =
      [{ name := "proj1", description := "",
         url := some "https://alice.github.io/proj1/",
         repoUrl := some "https://github.com/alice/proj1",
         thumbnail := none, isAutoDiscovered := false },
       { name := "Untitled", description := "", url := some "#",
         repoUrl := none, thumbnail := none, isAutoDiscovered := false }] := by
  decide

/-- C9: a fetch or parse failure makes `load` return the built-in
default configuration (fallback account, empty exclusion, order and
manual-entry lists) without propagating the error, and the account
accessor falls back to the same literal identifier whenever the
configured account is absent. -/
theorem c9_load_recovery :
    load .failure =
      { username := "darrenmcewan", exclude := [], order := [], projects := [] } ∧
    getUsername (load .failure) = "darrenmcewan" ∧
    (∀ raw : RawConfig, raw.username = none →
      getUsername (load (.success (some raw))) = "darrenmcewan") := by
  refine ⟨rfl, rfl, ?_⟩
  intro raw h
  simp [load, getUsername, optOrStr, strOr, h]
  decide

/-- Witness for C9 at the empty raw document. -/
theorem c9_witness :
    getUsername (load (.success (some {}))) = "darrenmcewan" :=
  c9_load_recovery.2.2 {} rfl

/-- C10: when several manual entries share a repo name, the override
applied to the matching auto-discovered Project is the first such entry
in configuration order, and the result does not depend on the later
entries. -/
theorem c10_first_override_wins (config : Config) (username : String) (r : Repo)
    (e : ConfigProject) (pre post : List ConfigProject)
    (hsplit : getProjects config = pre ++ e :: post)
    (hmatch : e.repo = some r.name)
    (hpre : ∀ p ∈ pre, p.repo ≠ some r.name) :
    mergeAutoProject config username r =
      overrideProject e (transformRepo r username) := by
  have hov : getProjectOverride config r.name = some e := by
    unfold getProjectOverride
    rw [hsplit, List.find?_append]
    have h1 : List.find? (fun p => p.repo == some r.name) pre = none := by
      rw [List.find?_eq_none]
      intro x hx
      simpa using hpre x hx
    have h2 : List.find? (fun p => p.repo == some r.name) (e :: post) = some e := by
      rw [List.find?_cons_of_pos]
      simpa using hmatch
    rw [h1, h2]
    rfl
  unfold mergeAutoProject
  rw [hov]

/-- Witness for C10: with two entries for repo `x`, the override comes
from the first one. -/
theorem c10_witness :
    mergeAutoProject c10Config "u" c10Repo =
      overrideProject c10First (transformRepo c10Repo "u") :=
  c10_first_override_wins c10Config "u" c10Repo c10First [] [c10Second]
    (by decide) (by decide) (by decide)
